import Mathlib

/-!
Shallow embedding of the exptrk backend (Flask app in `app.py`, database
schema in `models.py`).  Amounts travel as Python floats in `app.py` but
are persisted in a `NUMERIC(10,2)` column, so stored amounts are exact
two-decimal values; the embedding uses `ℚ` for amounts and makes the
two-decimal assumption an explicit hypothesis where a theorem needs it.
-/

namespace ExpTrk

/-- A calendar date as produced by `datetime.strptime(s, "%Y-%m-%d").date()`. -/
structure PyDate where
  year : Nat
  month : Nat
  day : Nat
deriving DecidableEq, Repr

/-- Leap-year rule used by Python's `datetime` (proleptic Gregorian). -/
def isLeap (y : Nat) : Bool :=
  y % 4 == 0 && (y % 100 != 0 || y % 400 == 0)

/-- Number of days in a month, matching `datetime`'s calendar validation. -/
def daysInMonth (y m : Nat) : Nat :=
  if m == 2 then (if isLeap y then 29 else 28)
  else if m == 4 || m == 6 || m == 9 || m == 11 then 30
  else 31

/-- Numeric value of a list of decimal digit characters. -/
def digitsToNat (l : List Char) : Nat :=
  l.foldl (fun a c => a * 10 + (c.toNat - 48)) 0

/-- Split a character list at every `'-'`, the list-level counterpart of
`s.split("-")`. -/
def splitOnDash : List Char → List (List Char)
  | [] => [[]]
  | c :: r =>
    if c == '-' then [] :: splitOnDash r
    else
      match splitOnDash r with
      | [] => [[c]]
      | g :: gs => (c :: g) :: gs

/-- Strip leading and trailing whitespace, as `float(s)` does before parsing. -/
def trimChars (cs : List Char) : List Char :=
  (((cs.dropWhile Char.isWhitespace).reverse).dropWhile Char.isWhitespace).reverse

/-- The `%Y` directive of `strptime` matches exactly four digits. -/
def yearTok (l : List Char) : Bool :=
  l.length == 4 && l.all Char.isDigit

/-- The `%m` directive matches `1[0-2]|0[1-9]|[1-9]`: one digit 1-9 or two digits 01-12. -/
def monthTok (l : List Char) : Bool :=
  l.all Char.isDigit &&
    ((l.length == 1 && decide (1 ≤ digitsToNat l)) ||
     (l.length == 2 && decide (1 ≤ digitsToNat l) && decide (digitsToNat l ≤ 12)))

/-- The `%d` directive matches `3[01]|[12]\d|0[1-9]|[1-9]`: one digit 1-9 or two digits 01-31. -/
def dayTok (l : List Char) : Bool :=
  l.all Char.isDigit &&
    ((l.length == 1 && decide (1 ≤ digitsToNat l)) ||
     (l.length == 2 && decide (1 ≤ digitsToNat l) && decide (digitsToNat l ≤ 31)))

/-- Embedding of `datetime.strptime(s, "%Y-%m-%d")`: returns `none` exactly when the
Python call raises `ValueError` (wrong shape, or an invalid calendar date such as
Feb 30, or year 0000 which is below `datetime.MINYEAR`). -/
def parseDate (s : String) : Option PyDate :=
  match splitOnDash s.toList with
  | [ys, ms, ds] =>
    if yearTok ys && monthTok ms && dayTok ds then
      let y := digitsToNat ys
      let m := digitsToNat ms
      let d := digitsToNat ds
      if 1 ≤ y && d ≤ daysInMonth y m then some ⟨y, m, d⟩ else none
    else none
  | _ => none

/-- Embedding of Python's `float(s)` on decimal string literals: surrounding
whitespace, optional sign, digits with optional fraction, optional exponent.
The value is assembled as an exact rational `mantissa / 10^k`.  Returns `none`
when `float(s)` raises `ValueError`.  (Exotic accepted forms such as `inf`,
`nan` or underscore separators are mapped to `none` as well; those values
cannot be stored in the `NUMERIC(10,2)` column, so the request fails either
way.) -/
def pyFloat (s : String) : Option ℚ :=
  let cs := trimChars s.toList
  let (neg, cs₁) : Bool × List Char :=
    match cs with
    | '-' :: rest => (true, rest)
    | '+' :: rest => (false, rest)
    | _ => (false, cs)
  let ip := cs₁.takeWhile Char.isDigit
  let cs₂ := cs₁.dropWhile Char.isDigit
  let (fp, cs₃) : List Char × List Char :=
    match cs₂ with
    | '.' :: r => (r.takeWhile Char.isDigit, r.dropWhile Char.isDigit)
    | _ => ([], cs₂)
  if ip.isEmpty && fp.isEmpty then none
  else
    let mant : ℤ := (if neg then -1 else 1) * (digitsToNat ip * 10 ^ fp.length + digitsToNat fp)
    match cs₃ with
    | [] => some (mkRat mant (10 ^ fp.length))
    | c :: r =>
      if c == 'e' || c == 'E' then
        let (eneg, r₁) : Bool × List Char :=
          match r with
          | '-' :: t => (true, t)
          | '+' :: t => (false, t)
          | _ => (false, r)
        let ed := r₁.takeWhile Char.isDigit
        let r₂ := r₁.dropWhile Char.isDigit
        if ed.isEmpty || !r₂.isEmpty then none
        else if eneg then some (mkRat mant (10 ^ fp.length * 10 ^ digitsToNat ed))
        else some (mkRat (mant * 10 ^ digitsToNat ed) (10 ^ fp.length))
      else none

/-- A JSON scalar as it may arrive for the `amount` field of a request body. -/
inductive JVal where
  | num (q : ℚ)
  | str (s : String)
  | boolean (b : Bool)
deriving DecidableEq, Repr

/-- Python truthiness of `data.get(k)` for a possibly-absent JSON scalar:
absent (or JSON null) and the falsy scalars `0`, `""`, `false` are falsy. -/
def jTruthy : Option JVal → Bool
  | none => false
  | some (.num q) => q != 0
  | some (.str s) => s != ""
  | some (.boolean b) => b

/-- Python truthiness for a possibly-absent string field. -/
def sTruthy : Option String → Bool
  | none => false
  | some s => s != ""

/-- Embedding of `float(x)` applied to a JSON scalar. -/
def jToFloat : JVal → Option ℚ
  | .num q => some q
  | .str s => pyFloat s
  | .boolean b => some (if b then 1 else 0)

/-- A stored row of the `transactions` table. -/
structure Txn where
  id : Nat
  userId : Nat
  amount : ℚ
  ty : String
  category : String
  description : Option String
  mode : String
  date : PyDate
deriving DecidableEq, Repr

/-- A stored row of the `users` table (password already hashed, opaque here). -/
structure UserRec where
  id : Nat
  name : String
  email : String
  password : String
deriving DecidableEq, Repr

/-- The `CHECK (type IN ('debit','credit'))` constraint of the `transactions` table. -/
def enumType (t : String) : Bool := t == "debit" || t == "credit"

/-- The `CHECK (mode IN ('cash','online'))` constraint of the `transactions` table. -/
def enumMode (m : String) : Bool := m == "cash" || m == "online"

/-! Rounding.  `round(x, 2)` in Python rounds half to even; the spec's
"standard rounding" rounds half away from zero.  Both are embedded so the
ledger claim can be compared against the spec's wording. -/

/-- Embedding of Python's `round(q, 2)` (banker's rounding, half to even),
evaluated on exact rationals. -/
def pyRound2 (q : ℚ) : ℚ :=
  (if q * 100 - ⌊q * 100⌋ < 1/2 then ((⌊q * 100⌋ : ℤ) : ℚ)
   else if 1/2 < q * 100 - ⌊q * 100⌋ then ((⌊q * 100⌋ + 1 : ℤ) : ℚ)
   else if ⌊q * 100⌋ % 2 = 0 then ((⌊q * 100⌋ : ℤ) : ℚ)
   else ((⌊q * 100⌋ + 1 : ℤ) : ℚ)) / 100

/-- Rounding to 2 decimal places with ties half away from zero — the reading of
the spec's "standard rounding". -/
def stdRound2 (q : ℚ) : ℚ :=
  (if 0 ≤ q * 100 then ((⌊q * 100 + 1/2⌋ : ℤ) : ℚ)
   else ((⌈q * 100 - 1/2⌉ : ℤ) : ℚ)) / 100

/-- A rational is an exact two-decimal value (its reduced denominator divides
100), as every amount stored in the `NUMERIC(10,2)` column is. -/
def cents2 (q : ℚ) : Bool := 100 % q.den == 0

/-! Request bodies. -/

/-- JSON body of `POST /api/add-transaction` and `PUT /api/edit-transaction`.
The `amount` field may arrive as any JSON scalar; the remaining business
fields are strings when present. -/
structure TxnReq where
  amount : Option JVal
  ty : Option String
  category : Option String
  mode : Option String
  date : Option String
  description : Option String
deriving DecidableEq, Repr

/-- JSON body of `POST /api/register`. -/
structure RegReq where
  name : Option String
  email : Option String
  password : Option String
deriving DecidableEq, Repr

/-- The truthiness guard `all(data.get(k) for k in required)` of `add_transaction`. -/
def allTruthy (req : TxnReq) : Bool :=
  jTruthy req.amount && sTruthy req.ty && sTruthy req.category &&
    sTruthy req.mode && sTruthy req.date

/-- Outcome of `POST /api/add-transaction`.  `missingFields` is the handler's own
400 response; `serverError` is Flask's 500 for the unhandled exceptions raised by
`float(...)`, `strptime(...)` or the database CHECK constraints at commit. -/
inductive AddRes where
  | success
  | missingFields
  | serverError
deriving DecidableEq, Repr

/-- HTTP status code of an add-transaction outcome. -/
def AddRes.status : AddRes → Nat
  | .success => 200
  | .missingFields => 400
  | .serverError => 500

/-- Embedding of the `add_transaction` handler.  `db` is the list of stored
transactions, `nextId` the next generated primary key.  A request that fails
never changes the store (the handler only commits on the success path). -/
def addTransaction (userId nextId : Nat) (db : List Txn) (req : TxnReq) :
    AddRes × List Txn :=
  if !allTruthy req then (.missingFields, db)
  else
    match req.amount, req.ty, req.category, req.mode, req.date with
    | some av, some ty, some cat, some mode, some ds =>
      match jToFloat av, parseDate ds with
      | some amt, some d =>
        if enumType ty && enumMode mode then
          (.success, db ++ [⟨nextId, userId, amt, ty, cat, req.description, mode, d⟩])
        else (.serverError, db)
      | _, _ => (.serverError, db)
    | _, _, _, _, _ => (.serverError, db)

/-- Outcome of `PUT /api/edit-transaction/<id>`.  `notFound` comes from
`first_or_404`; `serverError` is Flask's 500 for `KeyError`/`ValueError` on the
bracket accesses and conversions, or a CHECK-constraint violation at commit —
in every such case the commit never runs, so the stored row is unchanged. -/
inductive EditRes where
  | success
  | notFound
  | serverError
deriving DecidableEq, Repr

/-- HTTP status code of an edit-transaction outcome. -/
def EditRes.status : EditRes → Nat
  | .success => 200
  | .notFound => 404
  | .serverError => 500

/-- Embedding of the `edit_transaction` handler.  Unlike `add_transaction` it
has no truthiness guard: it reads `data["amount"]` etc. directly, so a missing
key raises `KeyError` (→ 500). -/
def editTransaction (caller txnId : Nat) (req : TxnReq) (db : List Txn) :
    EditRes × List Txn :=
  match db.find? (fun t => t.id == txnId && t.userId == caller) with
  | none => (.notFound, db)
  | some _ =>
    match req.amount, req.ty, req.category, req.mode, req.date with
    | some av, some ty, some cat, some mode, some ds =>
      match jToFloat av, parseDate ds with
      | some amt, some d =>
        if enumType ty && enumMode mode then
          (.success,
           db.map (fun t =>
             if t.id == txnId && t.userId == caller then
               { t with amount := amt, ty := ty, category := cat,
                        description := req.description, mode := mode, date := d }
             else t))
        else (.serverError, db)
      | _, _ => (.serverError, db)
    | _, _, _, _, _ => (.serverError, db)

/-- Outcome of `DELETE /api/delete-transaction/<id>`. -/
inductive DelRes where
  | success
  | notFound
deriving DecidableEq, Repr

/-- HTTP status code of a delete-transaction outcome. -/
def DelRes.status : DelRes → Nat
  | .success => 200
  | .notFound => 404

/-- Embedding of the `delete_transaction` handler. -/
def deleteTransaction (caller txnId : Nat) (db : List Txn) : DelRes × List Txn :=
  match db.find? (fun t => t.id == txnId && t.userId == caller) with
  | none => (.notFound, db)
  | some _ => (.success, db.filter (fun t => !(t.id == txnId && t.userId == caller)))

/-- Outcome of `POST /api/register`.  The handler wraps its whole body in
`try/except Exception`, so every failure — duplicate email at commit, but also
a missing body field (`KeyError`) — is rolled back and answered with the same
400 "Email already exists" response. -/
inductive RegRes where
  | success
  | emailExists
deriving DecidableEq, Repr

/-- HTTP status code of a register outcome. -/
def RegRes.status : RegRes → Nat
  | .success => 200
  | .emailExists => 400

/-- Embedding of the `register` handler over the `users` table with its
`UNIQUE` email constraint. -/
def register (users : List UserRec) (nextId : Nat) (req : RegReq) :
    RegRes × List UserRec :=
  match req.name, req.email, req.password with
  | some n, some e, some p =>
    if users.any (fun u => u.email == e) then (.emailExists, users)
    else (.success, users ++ [⟨nextId, n, e, p⟩])
  | _, _, _ => (.emailExists, users)

/-! Ledger engine. -/

/-- Signed contribution of one transaction: `t.amount if t.type == "credit"
else -t.amount`. -/
def signedAmt (t : Txn) : ℚ :=
  if t.ty == "credit" then t.amount else -t.amount

/-- Signed total of a transaction list. -/
def sumSigned (txns : List Txn) : ℚ :=
  (txns.map signedAmt).sum

/-- Embedding of the `ledger` handler's response value:
`round(sum(t.amount if t.type == "credit" else -t.amount for t in txns), 2)`. -/
def ledgerBalance (txns : List Txn) : ℚ :=
  pyRound2 (sumSigned txns)

/-- One iteration of the `download_ledger` loop on the `running_balance`
variable: `if t.type == "debit": running_balance -= t.amount` and in the
`else` branch `running_balance += t.amount`.  Note the loop tests for debit,
whereas the `ledger` handler tests for credit. -/
def loopStep (b : ℚ) (t : Txn) : ℚ :=
  if t.ty == "debit" then b - t.amount else b + t.amount

/-- The balance-after sequence produced by the `download_ledger` loop, starting
from running balance `b`. -/
def runningBalances : List Txn → ℚ → List ℚ
  | [], _ => []
  | t :: ts, b => loopStep b t :: runningBalances ts (loopStep b t)

/-- Value of the `running_balance` variable after the `download_ledger` loop —
the number printed in the PDF's closing-balance cell. -/
def closingBalance (txns : List Txn) : ℚ :=
  txns.foldl loopStep 0

/-! Analytics engine.  Python dicts are embedded as insertion-ordered
association lists. -/

/-- Key membership of an association list. -/
def hasKey (d : List (String × ℚ)) (k : String) : Bool :=
  d.any (fun p => p.1 == k)

/-- Lookup in an association list (`d.get(k)`). -/
def dget (d : List (String × ℚ)) (k : String) : Option ℚ :=
  (d.find? (fun p => p.1 == k)).map (fun p => p.2)

/-- Embedding of `d[k] = d.get(k, 0) + v` on a Python dict: update the existing
slot in place, or append a new key at the end. -/
def dictAdd (d : List (String × ℚ)) (k : String) (v : ℚ) : List (String × ℚ) :=
  if hasKey d k then d.map (fun p => if p.1 == k then (p.1, p.2 + v) else p)
  else d ++ [(k, v)]

/-- The three accumulator dicts of the `analytics` handler. -/
structure AggMaps where
  modes : List (String × ℚ)
  types : List (String × ℚ)
  categories : List (String × ℚ)
deriving DecidableEq, Repr

/-- One iteration of the `analytics` loop. -/
def analyticsStep (acc : AggMaps) (t : Txn) : AggMaps :=
  { modes := dictAdd acc.modes t.mode t.amount
    types := dictAdd acc.types t.ty t.amount
    categories :=
      if t.ty == "debit" then dictAdd acc.categories t.category t.amount
      else acc.categories }

/-- Embedding of the `analytics` handler's three mappings. -/
def analytics (txns : List Txn) : AggMaps :=
  txns.foldl analyticsStep ⟨[], [], []⟩

/-- Debit-only per-category total named by the spec. -/
def debitCatSum (txns : List Txn) (k : String) : ℚ :=
  ((txns.filter (fun t => t.ty == "debit" && t.category == k)).map (fun t => t.amount)).sum

/-- Whether some debit transaction carries category `k`. -/
def hasDebitCat (txns : List Txn) (k : String) : Bool :=
  txns.any (fun t => t.ty == "debit" && t.category == k)

/-! Ordering used by `download_ledger`:
`order_by(Transaction.date.asc())` — by date only. -/

/-- Date comparison (lexicographic on year, month, day), the order SQL's
`ORDER BY date ASC` sorts by. -/
def dateLeB (a b : PyDate) : Bool :=
  decide (a.year < b.year) ||
    (a.year == b.year &&
      (decide (a.month < b.month) ||
        (a.month == b.month && decide (a.day ≤ b.day))))

/-- Transaction comparison induced by `ORDER BY date ASC`. -/
def txnLe (t u : Txn) : Bool := dateLeB t.date u.date

/-- A list is weakly sorted under `le`: every element is `le` all later ones. -/
def pairwiseLe (le : Txn → Txn → Bool) : List Txn → Bool
  | [] => true
  | t :: ts => ts.all (le t) && pairwiseLe le ts

/-- Admissible result of `Transaction.query.filter_by(...).order_by(date.asc()).all()`:
any permutation of the user's rows that is sorted by date.  SQL specifies no
order between rows with equal dates. -/
def dbDateOrder (txns l : List Txn) : Prop :=
  l.Perm txns ∧ pairwiseLe txnLe l = true

/-- The ordering the spec claims: ascending by date with ties broken by id. -/
def txnLeById (t u : Txn) : Bool :=
  (dateLeB t.date u.date && !dateLeB u.date t.date) ||
    (t.date == u.date && decide (t.id ≤ u.id))

/-! Sample stored rows used by witnesses (the worked example of the spec:
credit 100, debit 40, credit 10 on consecutive dates). -/

/-- Sample row: credit of 100. -/
def txC100 : Txn := ⟨1, 1, 100, "credit", "salary", none, "online", ⟨2024, 1, 1⟩⟩

/-- Sample row: debit of 40. -/
def txD40 : Txn := ⟨2, 1, 40, "debit", "food", none, "cash", ⟨2024, 1, 2⟩⟩

/-- Sample row: credit of 10. -/
def txC10 : Txn := ⟨3, 1, 10, "credit", "gift", none, "cash", ⟨2024, 1, 3⟩⟩

/-- Convenience constructor for a fully-populated request body with a numeric
amount. -/
def mkTxnReq (a : ℚ) (ty cat mode ds : String) (desc : Option String) : TxnReq :=
  ⟨some (.num a), some ty, some cat, some mode, some ds, desc⟩

/-- Request with a non-enumerated type value (`transfer`), otherwise valid. -/
def reqBadType : TxnReq :=
  ⟨some (.num 5), some ("transfer"), some ("food"), some ("cash"), some ("2024-01-02"), none⟩

/-- Edit request body missing the required `type` field. -/
def reqNoTy : TxnReq :=
  ⟨some (.num 7), none, some ("food"), some ("cash"), some ("2024-01-03"), none⟩

/-- Request whose amount is the JSON string "0" — truthy, yet converting to 0.0. -/
def reqStrZero : TxnReq :=
  ⟨some (.str ("0")), some ("debit"), some ("food"), some ("cash"), some ("2024-01-02"), none⟩

/-- Request with a negative numeric amount, otherwise valid. -/
def reqNeg : TxnReq :=
  ⟨some (.num (-5)), some ("debit"), some ("food"), some ("cash"), some ("2024-01-02"), none⟩

/-- A stored transaction owned by user 2 (for ownership-isolation witnesses). -/
def txOther : Txn := ⟨5, 2, 40, "debit", "food", none, "cash", ⟨2024, 1, 2⟩⟩

/-- A registered user. -/
def userA : UserRec := ⟨1, "A", "a@example.com", "hash"⟩

/-- Request whose amount is the JSON number 0 (falsy), otherwise valid. -/
def reqZeroNum : TxnReq :=
  ⟨some (.num 0), some ("debit"), some ("food"), some ("cash"), some ("2024-01-02"), none⟩

/-- Two transactions of the same user sharing one date (ids 1 and 2). -/
def txTieA : Txn := ⟨1, 1, 5, "debit", "food", none, "cash", ⟨2024, 5, 5⟩⟩

/-- Second same-date transaction, created later (id 2). -/
def txTieB : Txn := ⟨2, 1, 6, "credit", "salary", none, "online", ⟨2024, 5, 5⟩⟩

/-! Lemmas about rounding on exact two-decimal values. -/

theorem round2_int_fixed (n : ℤ) (q : ℚ) (h : q * 100 = (n : ℚ)) :
    pyRound2 q = q ∧ stdRound2 q = q := by
  have hq : q = (n : ℚ) / 100 := by
    field_simp
    linarith [h]
  constructor
  · rw [pyRound2, h, Int.floor_intCast]
    rw [if_pos (by norm_num)]
    rw [hq]
  · rw [stdRound2, h]
    by_cases h0 : (0 : ℚ) ≤ (n : ℚ)
    · rw [if_pos h0]
      have : ⌊(n : ℚ) + 1/2⌋ = n := by
        rw [Int.floor_int_add]
        norm_num
      rw [this, hq]
    · rw [if_neg h0]
      have : ⌈(n : ℚ) - 1/2⌉ = n := by
        have h2 : (n : ℚ) - 1/2 = -(1/2) + (n : ℚ) := by ring
        rw [h2, Int.ceil_add_int]
        norm_num
      rw [this, hq]

theorem cents2_exists_int (q : ℚ) (h : cents2 q = true) : ∃ n : ℤ, q * 100 = (n : ℚ) := by
  have hmod : 100 % q.den = 0 := by
    simpa [cents2] using h
  obtain ⟨k, hk⟩ : q.den ∣ 100 := Nat.dvd_of_mod_eq_zero hmod
  refine ⟨q.num * k, ?_⟩
  have hden : q * (q.den : ℚ) = (q.num : ℚ) := Rat.mul_den_eq_num q
  have hcast : (100 : ℚ) = (q.den : ℚ) * (k : ℚ) := by
    exact_mod_cast congrArg (fun n : ℕ => (n : ℚ)) hk
  push_cast
  rw [hcast, ← mul_assoc, hden]

theorem sumSigned_nil : sumSigned [] = 0 := rfl

theorem sumSigned_cons (t : Txn) (l : List Txn) :
    sumSigned (t :: l) = signedAmt t + sumSigned l := by
  simp [sumSigned]

theorem sumSigned_cents (txns : List Txn) (h : ∀ t ∈ txns, cents2 t.amount = true) :
    ∃ n : ℤ, sumSigned txns * 100 = (n : ℚ) := by
  induction txns with
  | nil => exact ⟨0, by simp [sumSigned_nil]⟩
  | cons t l ih =>
    obtain ⟨m, hm⟩ := ih (fun u hu => h u (List.mem_cons_of_mem _ hu))
    obtain ⟨a, ha⟩ := cents2_exists_int t.amount (h t (List.mem_cons_self _ _))
    by_cases hc : t.ty == "credit"
    · exact ⟨a + m, by rw [sumSigned_cons]; push_cast; rw [signedAmt, if_pos hc]; linarith⟩
    · refine ⟨-a + m, ?_⟩
      rw [sumSigned_cons]
      push_cast
      rw [signedAmt, if_neg hc]
      linarith

theorem loopStep_eq_signed (b : ℚ) (t : Txn) (he : enumType t.ty = true) :
    loopStep b t = b + signedAmt t := by
  rcases (Bool.or_eq_true _ _).mp he with hd | hc
  · have hdeq : t.ty = "debit" := by simpa using hd
    have hnc : (t.ty == "credit") = false := by simp [hdeq]
    rw [loopStep, if_pos hd, signedAmt, if_neg (by simp [hnc])]
    ring
  · have hceq : t.ty = "credit" := by simpa using hc
    have hnd : (t.ty == "debit") = false := by simp [hceq]
    rw [loopStep, if_neg (by simp [hnd]), signedAmt, if_pos hc]

theorem foldl_loopStep (l : List Txn) (b : ℚ) (he : ∀ t ∈ l, enumType t.ty = true) :
    l.foldl loopStep b = b + sumSigned l := by
  induction l generalizing b with
  | nil => simp [sumSigned_nil]
  | cons t ts ih =>
    rw [List.foldl_cons, ih (loopStep b t) (fun u hu => he u (List.mem_cons_of_mem t hu)),
      loopStep_eq_signed b t (he t (List.mem_cons_self t ts)), sumSigned_cons]
    ring

theorem runningBalances_getLastD (l : List Txn) (b : ℚ) :
    (runningBalances l b).getLastD b = l.foldl loopStep b := by
  induction l generalizing b with
  | nil => rfl
  | cons t ts ih =>
    rw [runningBalances, List.getLastD_cons, ih, List.foldl_cons]

theorem sumSigned_perm (l₁ l₂ : List Txn) (hp : l₁.Perm l₂) :
    sumSigned l₁ = sumSigned l₂ :=
  List.Perm.sum_eq (hp.map signedAmt)

/-- Claim C1: for every set of a user's transactions (stored amounts are exact
two-decimal values), the ledger balance operation returns the signed total
Σ(amount if credit, else −amount) rounded to 2 decimal places using standard
rounding, and for the empty transaction set the balance is 0.  Python's
`round` rounds half to even, but on a sum of two-decimal amounts no tie can
arise, so the result agrees with standard (half away from zero) rounding. -/
theorem ledger_balance_signed_sum (txns : List Txn)
    (h : ∀ t ∈ txns, cents2 t.amount = true) :
    ledgerBalance txns = stdRound2 (sumSigned txns) ∧ ledgerBalance [] = 0 := by
  obtain ⟨n, hn⟩ := sumSigned_cents txns h
  obtain ⟨hp, hs⟩ := round2_int_fixed n (sumSigned txns) hn
  refine ⟨?_, ?_⟩
  · rw [ledgerBalance, hp, hs]
  · have h0 := round2_int_fixed 0 0 (by norm_num)
    rw [ledgerBalance, sumSigned_nil, h0.1]

/-- Witness for C1 at the spec's worked example. -/
theorem ledger_balance_signed_sum_witness :
    (∀ t ∈ [txC100, txD40, txC10], cents2 t.amount = true) ∧
    (ledgerBalance [txC100, txD40, txC10] = stdRound2 (sumSigned [txC100, txD40, txC10]) ∧
      ledgerBalance [] = 0) :=
  ⟨by decide, ledger_balance_signed_sum [txC100, txD40, txC10] (by decide)⟩

/-- Claim C2: the closing balance printed in the exported ledger document is
the final balance-after value of the running-balance sequence, and both equal
the value returned by the ledger balance operation.  The export loop subtracts
on `type == "debit"` and adds otherwise, while the ledger sums with adds on
`type == "credit"` and subtracts otherwise; the two agree exactly because
every stored type is in the enumerated set (the DB CHECK constraint), which is
the `henum` hypothesis, and the rounding in the ledger is the identity on
two-decimal amounts (`h`). -/
theorem export_closing_matches_ledger (txns ord : List Txn)
    (hp : ord.Perm txns) (h : ∀ t ∈ txns, cents2 t.amount = true)
    (henum : ∀ t ∈ txns, enumType t.ty = true) :
    (runningBalances ord 0).getLastD 0 = closingBalance ord ∧
    closingBalance ord = sumSigned txns ∧
    ledgerBalance txns = closingBalance ord := by
  have henum' : ∀ t ∈ ord, enumType t.ty = true := fun t ht => henum t (hp.subset ht)
  have h1 : (runningBalances ord 0).getLastD 0 = closingBalance ord := by
    rw [closingBalance, runningBalances_getLastD]
  have h2 : closingBalance ord = sumSigned txns := by
    rw [closingBalance, foldl_loopStep ord 0 henum', zero_add]
    exact sumSigned_perm ord txns hp
  obtain ⟨n, hn⟩ := sumSigned_cents txns h
  have h3 : ledgerBalance txns = sumSigned txns := by
    rw [ledgerBalance, (round2_int_fixed n (sumSigned txns) hn).1]
  exact ⟨h1, h2, by rw [h3, h2]⟩

/-! Association-list lemmas for the analytics dicts. -/

theorem dget_cons_self (p : String × ℚ) (d : List (String × ℚ)) (k : String)
    (h : (p.1 == k) = true) : dget (p :: d) k = some p.2 := by
  simp [dget, h]

theorem dget_cons_ne (p : String × ℚ) (d : List (String × ℚ)) (k : String)
    (h : (p.1 == k) = false) : dget (p :: d) k = dget d k := by
  simp [dget, h]

theorem hasKey_isSome_dget (d : List (String × ℚ)) (k : String) :
    hasKey d k = (dget d k).isSome := by
  induction d with
  | nil => rfl
  | cons p d ih =>
    by_cases hp : (p.1 == k) = true
    · rw [dget_cons_self p d k hp]
      simp [hasKey, hp]
    · have hb : (p.1 == k) = false := by simpa using hp
      rw [dget_cons_ne p d k hb]
      simp only [hasKey, List.any_cons, hb, Bool.false_or]
      exact ih

theorem dictAdd_cons_ne (p : String × ℚ) (d : List (String × ℚ)) (k : String) (v : ℚ)
    (h : (p.1 == k) = false) : dictAdd (p :: d) k v = p :: dictAdd d k v := by
  have hpd : hasKey (p :: d) k = hasKey d k := by
    simp [hasKey, h]
  by_cases hd : hasKey d k
  · simp [dictAdd, hpd, hd, h]
    intro hc
    exact absurd hc (by simpa using h)
  · have hd' : hasKey d k = false := by simpa using hd
    simp [dictAdd, hpd, hd', h]

theorem dictAdd_cons_self (p : String × ℚ) (d : List (String × ℚ)) (k : String) (v : ℚ)
    (h : (p.1 == k) = true) :
    dictAdd (p :: d) k v =
      (p.1, p.2 + v) :: d.map (fun q => if q.1 == k then (q.1, q.2 + v) else q) := by
  have hpd : hasKey (p :: d) k = true := by
    simp [hasKey, h]
  simp [dictAdd, hpd, h]
  intro hc
  exact absurd (by simpa using h) hc

theorem dget_dictAdd_self (d : List (String × ℚ)) (k : String) (v : ℚ) :
    dget (dictAdd d k v) k = some ((dget d k).getD 0 + v) := by
  induction d with
  | nil => simp [dictAdd, hasKey, dget]
  | cons p d ih =>
    by_cases hp : (p.1 == k) = true
    · rw [dictAdd_cons_self p d k v hp]
      rw [dget_cons_self (p.1, p.2 + v) _ k (by simpa using hp)]
      rw [dget_cons_self p d k hp]
      rfl
    · have hb : (p.1 == k) = false := by simpa using hp
      rw [dictAdd_cons_ne p d k v hb, dget_cons_ne p _ k hb, dget_cons_ne p d k hb, ih]

theorem dget_map_preserve (d : List (String × ℚ)) (k k' : String) (v : ℚ) (h : k' ≠ k) :
    dget (d.map (fun q => if q.1 == k then (q.1, q.2 + v) else q)) k' = dget d k' := by
  induction d with
  | nil => rfl
  | cons p d ih =>
    rw [List.map_cons]
    by_cases hpk : (p.1 == k) = true
    · have hb : (p.1 == k') = false := by
        have : p.1 = k := by simpa using hpk
        rw [this]
        simpa using Ne.symm h
      rw [if_pos hpk]
      rw [dget_cons_ne (p.1, p.2 + v) _ k' (by simpa using hb)]
      rw [dget_cons_ne p d k' hb, ih]
    · have hbk : (p.1 == k) = false := by simpa using hpk
      rw [if_neg (by simp [hbk])]
      by_cases hp' : (p.1 == k') = true
      · rw [dget_cons_self p _ k' hp', dget_cons_self p d k' hp']
      · have hb' : (p.1 == k') = false := by simpa using hp'
        rw [dget_cons_ne p _ k' hb', dget_cons_ne p d k' hb', ih]

theorem dget_append_single (d : List (String × ℚ)) (k k' : String) (v : ℚ) (h : k' ≠ k) :
    dget (d ++ [(k, v)]) k' = dget d k' := by
  induction d with
  | nil =>
    have hb : ((k, v).1 == k') = false := by simpa using Ne.symm h
    simpa using dget_cons_ne (k, v) [] k' hb
  | cons p d ih =>
    rw [List.cons_append]
    by_cases hp : (p.1 == k') = true
    · rw [dget_cons_self p _ k' hp, dget_cons_self p d k' hp]
    · have hb : (p.1 == k') = false := by simpa using hp
      rw [dget_cons_ne p _ k' hb, dget_cons_ne p d k' hb, ih]

theorem dget_dictAdd_ne (d : List (String × ℚ)) (k k' : String) (v : ℚ) (h : k' ≠ k) :
    dget (dictAdd d k v) k' = dget d k' := by
  by_cases hk : hasKey d k
  · rw [dictAdd, if_pos hk]
    exact dget_map_preserve d k k' v h
  · rw [dictAdd, if_neg hk]
    exact dget_append_single d k k' v h

theorem hasKey_dictAdd (d : List (String × ℚ)) (k k' : String) (v : ℚ) :
    (hasKey (dictAdd d k v) k' = true ↔ (hasKey d k' = true ∨ k' = k)) := by
  by_cases h : k' = k
  · subst h
    rw [hasKey_isSome_dget, dget_dictAdd_self]
    simp
  · rw [hasKey_isSome_dget, dget_dictAdd_ne d k k' v h, ← hasKey_isSome_dget]
    simp [h]

theorem debitCatSum_cons (t : Txn) (ts : List Txn) (k : String) :
    debitCatSum (t :: ts) k =
      (if (t.ty == "debit" && t.category == k) = true then t.amount else 0) +
        debitCatSum ts k := by
  by_cases hc : (t.ty == "debit" && t.category == k) = true
  · simp [debitCatSum, List.filter_cons, hc]
  · have hc' : (t.ty == "debit" && t.category == k) = false := by simpa using hc
    simp [debitCatSum, List.filter_cons, hc']

theorem analytics_fold_spec (l : List Txn) (acc : AggMaps) (k : String) :
    (hasKey ((l.foldl analyticsStep acc).modes) k = true ↔
      (hasKey acc.modes k = true ∨ ∃ t ∈ l, t.mode = k)) ∧
    (hasKey ((l.foldl analyticsStep acc).types) k = true ↔
      (hasKey acc.types k = true ∨ ∃ t ∈ l, t.ty = k)) ∧
    (hasKey ((l.foldl analyticsStep acc).categories) k = true ↔
      (hasKey acc.categories k = true ∨ ∃ t ∈ l, t.ty = "debit" ∧ t.category = k)) ∧
    (dget ((l.foldl analyticsStep acc).categories) k).getD 0
      = (dget acc.categories k).getD 0 + debitCatSum l k := by
  induction l generalizing acc with
  | nil => simp [debitCatSum]
  | cons t ts ih =>
    rw [List.foldl_cons]
    obtain ⟨ihm, iht, ihc, ihv⟩ := ih (analyticsStep acc t)
    have hm : (analyticsStep acc t).modes = dictAdd acc.modes t.mode t.amount := rfl
    have hty : (analyticsStep acc t).types = dictAdd acc.types t.ty t.amount := rfl
    have hcat : (analyticsStep acc t).categories =
        (if (t.ty == "debit") = true then dictAdd acc.categories t.category t.amount
         else acc.categories) := rfl
    refine ⟨?_, ?_, ?_, ?_⟩
    · rw [ihm, hm, hasKey_dictAdd]
      constructor
      · rintro ((h | h) | ⟨u, hu, hk⟩)
        · exact Or.inl h
        · exact Or.inr ⟨t, List.mem_cons_self t ts, h.symm⟩
        · exact Or.inr ⟨u, List.mem_cons_of_mem t hu, hk⟩
      · rintro (h | ⟨u, hu, hk⟩)
        · exact Or.inl (Or.inl h)
        · rcases List.mem_cons.mp hu with h1 | h1
          · exact Or.inl (Or.inr (h1 ▸ hk.symm))
          · exact Or.inr ⟨u, h1, hk⟩
    · rw [iht, hty, hasKey_dictAdd]
      constructor
      · rintro ((h | h) | ⟨u, hu, hk⟩)
        · exact Or.inl h
        · exact Or.inr ⟨t, List.mem_cons_self t ts, h.symm⟩
        · exact Or.inr ⟨u, List.mem_cons_of_mem t hu, hk⟩
      · rintro (h | ⟨u, hu, hk⟩)
        · exact Or.inl (Or.inl h)
        · rcases List.mem_cons.mp hu with h1 | h1
          · exact Or.inl (Or.inr (h1 ▸ hk.symm))
          · exact Or.inr ⟨u, h1, hk⟩
    · rw [ihc, hcat]
      by_cases hq : (t.ty == "debit") = true
      · rw [if_pos hq, hasKey_dictAdd]
        have hqeq : t.ty = "debit" := by simpa using hq
        constructor
        · rintro ((h | h) | ⟨u, hu, hk⟩)
          · exact Or.inl h
          · exact Or.inr ⟨t, List.mem_cons_self t ts, hqeq, h.symm⟩
          · exact Or.inr ⟨u, List.mem_cons_of_mem t hu, hk⟩
        · rintro (h | ⟨u, hu, hk⟩)
          · exact Or.inl (Or.inl h)
          · rcases List.mem_cons.mp hu with h1 | h1
            · exact Or.inl (Or.inr (h1 ▸ hk.2.symm))
            · exact Or.inr ⟨u, h1, hk⟩
      · rw [if_neg hq]
        have hqne : t.ty ≠ "debit" := by simpa using hq
        constructor
        · rintro (h | ⟨u, hu, hk⟩)
          · exact Or.inl h
          · exact Or.inr ⟨u, List.mem_cons_of_mem t hu, hk⟩
        · rintro (h | ⟨u, hu, hk⟩)
          · exact Or.inl h
          · rcases List.mem_cons.mp hu with h1 | h1
            · exact absurd (h1 ▸ hk.1) hqne
            · exact Or.inr ⟨u, h1, hk⟩
    · rw [ihv, hcat, debitCatSum_cons]
      by_cases hq : (t.ty == "debit") = true
      · rw [if_pos hq]
        by_cases hk : k = t.category
        · subst hk
          rw [dget_dictAdd_self]
          rw [if_pos (by simp [hq])]
          simp only [Option.getD_some]
          ring
        · rw [dget_dictAdd_ne acc.categories t.category k t.amount hk]
          have hcnd : (t.ty == "debit" && t.category == k) = false := by
            simp [Ne.symm hk]
          rw [if_neg (by simp [hcnd])]
          ring
      · rw [if_neg hq]
        have hcnd : (t.ty == "debit" && t.category == k) = false := by
          have : (t.ty == "debit") = false := by simpa using hq
          simp [this]
        rw [if_neg (by simp [hcnd])]
        ring

/-- Claim C3: the analytics by-category mapping sums amounts only over debit
transactions — its entry at a key is exactly the debit-only total when some
debit transaction carries that category and absent otherwise, so a category
contributed only by credit transactions never appears — and none of the three
mappings contains a key absent from the input (no zero-filling). -/
theorem analytics_category_debit_only (txns : List Txn) (k : String) :
    (dget (analytics txns).categories k =
      (if hasDebitCat txns k = true then some (debitCatSum txns k) else none)) ∧
    (hasKey (analytics txns).modes k = true → ∃ t ∈ txns, t.mode = k) ∧
    (hasKey (analytics txns).types k = true → ∃ t ∈ txns, t.ty = k) ∧
    (hasKey (analytics txns).categories k = true → ∃ t ∈ txns, t.ty = "debit" ∧ t.category = k) := by
  obtain ⟨hm, ht, hc, hv⟩ := analytics_fold_spec txns ⟨[], [], []⟩ k
  rw [show txns.foldl analyticsStep ⟨[], [], []⟩ = analytics txns from rfl] at hm ht hc hv
  have hempty : hasKey ([] : List (String × ℚ)) k = false := rfl
  have hcimp : hasKey (analytics txns).categories k = true →
      ∃ t ∈ txns, t.ty = "debit" ∧ t.category = k := by
    intro h
    rcases hc.mp h with h1 | h1
    · exact absurd h1 (by simp [hempty])
    · exact h1
  refine ⟨?_, ?_, ?_, hcimp⟩
  · by_cases hd : hasDebitCat txns k = true
    · rw [if_pos hd]
      have hke : hasKey (analytics txns).categories k = true := by
        apply hc.mpr
        right
        have := List.any_eq_true.mp hd
        obtain ⟨t, htm, hp⟩ := this
        refine ⟨t, htm, ?_, ?_⟩
        · have := (Bool.and_eq_true _ _).mp hp
          simpa using this.1
        · have := (Bool.and_eq_true _ _).mp hp
          simpa using this.2
      obtain ⟨x, hx⟩ := Option.isSome_iff_exists.mp
        (by rw [← hasKey_isSome_dget, hke])
      rw [hx]
      have : x = debitCatSum txns k := by
        have hx0 : (dget (analytics txns).categories k).getD 0 = x := by
          rw [hx]
          rfl
        rw [hx0] at hv
        simpa [dget] using hv
      rw [this]
    · have hd' : hasDebitCat txns k = false := by simpa using hd
      rw [hd']
      simp only [Bool.false_eq_true, if_false]
      have hke : hasKey (analytics txns).categories k = false := by
        by_contra hcon
        have hke' : hasKey (analytics txns).categories k = true := by
          simpa using hcon
        obtain ⟨t, htm, h1, h2⟩ := hcimp hke'
        have : hasDebitCat txns k = true :=
          List.any_eq_true.mpr ⟨t, htm, by simp [h1, h2]⟩
        rw [this] at hd'
        exact absurd hd' (by simp)
      rw [hasKey_isSome_dget] at hke
      exact Option.not_isSome_iff_eq_none.mp (by simp [hke])
  · intro h
    rcases hm.mp h with h1 | h1
    · exact absurd h1 (by simp [hempty])
    · exact h1
  · intro h
    rcases ht.mp h with h1 | h1
    · exact absurd h1 (by simp [hempty])
    · exact h1

/-- Witness for C3: at the two-transaction example (debit 50-style food row and
a credit salary row) the debit category, the payment mode and the credit type
all appear, each traced back to a contributing input transaction. -/
theorem analytics_category_debit_only_witness :
    (∃ t ∈ [txD40, txC100], t.mode = "cash") ∧
    (∃ t ∈ [txD40, txC100], t.ty = "credit") ∧
    (∃ t ∈ [txD40, txC100], t.ty = "debit" ∧ t.category = "food") :=
  ⟨(analytics_category_debit_only [txD40, txC100] "cash").2.1 (by decide),
   (analytics_category_debit_only [txD40, txC100] "credit").2.2.1 (by decide),
   (analytics_category_debit_only [txD40, txC100] "food").2.2.2 (by decide)⟩

/-- Witness for C2 at the spec's worked example. -/
theorem export_closing_matches_ledger_witness :
    (runningBalances [txC100, txD40, txC10] 0).getLastD 0 = closingBalance [txC100, txD40, txC10] ∧
    closingBalance [txC100, txD40, txC10] = sumSigned [txC100, txD40, txC10] ∧
    ledgerBalance [txC100, txD40, txC10] = closingBalance [txC100, txD40, txC10] :=
  export_closing_matches_ledger [txC100, txD40, txC10] [txC100, txD40, txC10]
    (List.Perm.refl _) (by decide) (by decide)

/-! Create-transaction behaviour (claims C4, C9, C10). -/

theorem addTransaction_db_cases (userId nextId : Nat) (db : List Txn) (req : TxnReq) :
    (addTransaction userId nextId db req).1 = .success ∨
      (addTransaction userId nextId db req).2 = db := by
  unfold addTransaction
  repeat first
  | (left; rfl)
  | (right; rfl)
  | split

/-- Counterexample to claim C4 as stated: a create request whose `type` is not
in the enumerated set does not fail with a 400 ValidationError — the CHECK
constraint violation at commit surfaces as an unhandled 500 — though no
transaction is created. -/
theorem add_bad_enum_counterexample :
    (addTransaction 1 1 [] reqBadType).1 = AddRes.serverError ∧
    (addTransaction 1 1 [] reqBadType).1.status = 500 ∧
    ((addTransaction 1 1 [] reqBadType).1.status == 400) = false ∧
    (addTransaction 1 1 [] reqBadType).2 = [] := by
  decide

/-- Claim C4 (amended): the create operation answers 400 "Missing fields"
exactly when a required field is missing or falsy (any other response rules a
missing/falsy field out); a request passing the truthiness guard but carrying
a type or mode outside its enumerated set, or an unparseable date, fails with
an unhandled 500 instead of a 400 ValidationError; in every non-success case
no transaction is created. -/
theorem add_validation_behaviour (userId nextId : Nat) (db : List Txn) (req : TxnReq) :
    ((addTransaction userId nextId db req).1 ≠ .success →
      (addTransaction userId nextId db req).2 = db) ∧
    (allTruthy req = false →
      addTransaction userId nextId db req = (.missingFields, db)) ∧
    ((addTransaction userId nextId db req).1 = .missingFields → allTruthy req = false) ∧
    (∀ av ty cat mode ds desc,
      req = ⟨some av, some ty, some cat, some mode, some ds, desc⟩ →
      allTruthy req = true → (enumType ty = false ∨ enumMode mode = false) →
      addTransaction userId nextId db req = (.serverError, db)) ∧
    (∀ av ty cat mode ds desc,
      req = ⟨some av, some ty, some cat, some mode, some ds, desc⟩ →
      allTruthy req = true → parseDate ds = none →
      addTransaction userId nextId db req = (.serverError, db)) := by
  refine ⟨?_, ?_, ?_, ?_, ?_⟩
  · intro h
    exact (addTransaction_db_cases userId nextId db req).resolve_left h
  · intro h
    simp [addTransaction, h]
  · intro h
    by_contra habs
    have hT : allTruthy req = true := by simpa using habs
    obtain ⟨ra, rt, rc, rm, rdt, rdesc⟩ := req
    cases ra with
    | none => simp [allTruthy, jTruthy] at hT
    | some av =>
      cases rt with
      | none => simp [allTruthy, sTruthy] at hT
      | some tv =>
        cases rc with
        | none => simp [allTruthy, sTruthy] at hT
        | some cv =>
          cases rm with
          | none => simp [allTruthy, sTruthy] at hT
          | some mv =>
            cases rdt with
            | none => simp [allTruthy, sTruthy] at hT
            | some dv =>
              cases hjf : jToFloat av with
              | none => simp [addTransaction, hT, hjf] at h
              | some amt =>
                cases hpd : parseDate dv with
                | none => simp [addTransaction, hT, hjf, hpd] at h
                | some d =>
                  simp only [addTransaction, hT, hjf, hpd, Bool.not_true] at h
                  rw [if_neg (by simp)] at h
                  split at h <;> simp at h
  · rintro av ty cat mode ds desc rfl hT henum
    cases hjf : jToFloat av with
    | none => simp [addTransaction, hT, hjf]
    | some amt =>
      cases hpd : parseDate ds with
      | none => simp [addTransaction, hT, hjf, hpd]
      | some d =>
        rcases henum with he | he <;> simp [addTransaction, hT, hjf, hpd, he]
  · rintro av ty cat mode ds desc rfl hT hpd
    cases hjf : jToFloat av with
    | none => simp [addTransaction, hT, hjf]
    | some amt => simp [addTransaction, hT, hjf, hpd]

/-- Witness for C4's amended theorem at the bad-enum request. -/
theorem add_validation_behaviour_witness :
    addTransaction 1 1 [] reqBadType = (AddRes.serverError, []) :=
  (add_validation_behaviour 1 1 [] reqBadType).2.2.2.1 (JVal.num 5) ("transfer") ("food")
    ("cash") ("2024-01-02") none rfl (by decide) (Or.inl (by decide))

/-! Ownership isolation and edit atomicity (claims C5, C6). -/

/-- Claim C5: for every caller and transaction id not owned by that caller —
whether the id belongs to another user or does not exist at all — edit and
delete answer the same 404 NotFound and leave every stored transaction
untouched. -/
theorem unowned_id_not_found (db : List Txn) (caller tid : Nat) (req : TxnReq)
    (h : ∀ t ∈ db, ¬(t.id = tid ∧ t.userId = caller)) :
    editTransaction caller tid req db = (.notFound, db) ∧
    deleteTransaction caller tid db = (.notFound, db) ∧
    EditRes.notFound.status = 404 ∧ DelRes.notFound.status = 404 := by
  have hf : db.find? (fun t => t.id == tid && t.userId == caller) = none := by
    rw [List.find?_eq_none]
    intro t ht hb
    have hb' := (Bool.and_eq_true _ _).mp hb
    exact h t ht ⟨by simpa using hb'.1, by simpa using hb'.2⟩
  refine ⟨?_, ?_, rfl, rfl⟩
  · simp [editTransaction, hf]
  · simp [deleteTransaction, hf]

/-- Witness for C5: user 1 attacking id 5 (which exists but belongs to user 2)
and id 99 (which exists under nobody) gets the identical 404 with the store
unchanged in both cases. -/
theorem unowned_id_not_found_witness :
    (editTransaction 1 5 (mkTxnReq 7 ("debit") ("food") ("cash") ("2024-01-03") none)
        [txOther] = (EditRes.notFound, [txOther]) ∧
      deleteTransaction 1 5 [txOther] = (DelRes.notFound, [txOther]) ∧
      EditRes.notFound.status = 404 ∧ DelRes.notFound.status = 404) ∧
    (editTransaction 1 99 (mkTxnReq 7 ("debit") ("food") ("cash") ("2024-01-03") none)
        [txOther] = (EditRes.notFound, [txOther]) ∧
      deleteTransaction 1 99 [txOther] = (DelRes.notFound, [txOther]) ∧
      EditRes.notFound.status = 404 ∧ DelRes.notFound.status = 404) :=
  ⟨unowned_id_not_found [txOther] 1 5 _ (by decide),
   unowned_id_not_found [txOther] 1 99 _ (by decide)⟩

/-- Claim C7: registering with an email equal to an already-registered user's
email fails with the handler's 400 response, and the stored users — in
particular the first user's record — are unchanged by the failed attempt. -/
theorem duplicate_email_conflict (users : List UserRec) (nid : Nat) (req : RegReq)
    (e : String) (he : req.email = some e) (hdup : ∃ u ∈ users, u.email = e) :
    register users nid req = (.emailExists, users) ∧ RegRes.emailExists.status = 400 := by
  obtain ⟨rn, re, rp⟩ := req
  have he' : re = some e := he
  subst he'
  refine ⟨?_, rfl⟩
  have hany : users.any (fun u => u.email == e) = true := by
    obtain ⟨u, hu, hue⟩ := hdup
    exact List.any_eq_true.mpr ⟨u, hu, by simp [hue]⟩
  cases rn with
  | none => rfl
  | some n =>
    cases rp with
    | none => rfl
    | some p => simp [register, hany]

/-- Witness for C7 at a concrete duplicate registration. -/
theorem duplicate_email_conflict_witness :
    register [userA] 2 ⟨some ("Bob"), some ("a@example.com"), some ("pw")⟩ =
      (RegRes.emailExists, [userA]) ∧ RegRes.emailExists.status = 400 :=
  duplicate_email_conflict [userA] 2 _ ("a@example.com") rfl (by decide)

/-! Export ordering (claim C8). -/

theorem dateLeB_antisymm (a b : PyDate) (h1 : dateLeB a b = true) (h2 : dateLeB b a = true) :
    a = b := by
  cases a with
  | mk ay am ad =>
    cases b with
    | mk b1 b2 b3 =>
      simp only [dateLeB, Bool.or_eq_true, Bool.and_eq_true, decide_eq_true_eq,
        beq_iff_eq] at h1 h2
      simp only [PyDate.mk.injEq]
      refine ⟨?_, ?_, ?_⟩ <;> omega

theorem pairwiseLe_cons_parts (le : Txn → Txn → Bool) (a : Txn) (l : List Txn)
    (h : pairwiseLe le (a :: l) = true) :
    l.all (le a) = true ∧ pairwiseLe le l = true :=
  (Bool.and_eq_true _ _).mp (by simpa [pairwiseLe] using h)

theorem sorted_perm_eq (l₁ : List Txn) : ∀ l₂ : List Txn, l₁.Perm l₂ →
    l₁.Pairwise (fun a b => a.date ≠ b.date) →
    pairwiseLe txnLe l₁ = true → pairwiseLe txnLe l₂ = true → l₁ = l₂ := by
  induction l₁ with
  | nil =>
    intro l₂ hp _ _ _
    exact hp.nil_eq
  | cons a t₁ ih =>
    intro l₂ hp hpw hs1 hs2
    cases l₂ with
    | nil => exact absurd hp.eq_nil (List.cons_ne_nil a t₁)
    | cons b t₂ =>
      by_cases hab : a = b
      · subst hab
        have hp' : t₁.Perm t₂ := hp.cons_inv
        have ht : t₁ = t₂ :=
          ih t₂ hp' hpw.of_cons (pairwiseLe_cons_parts txnLe a t₁ hs1).2
            (pairwiseLe_cons_parts txnLe a t₂ hs2).2
        rw [ht]
      · exfalso
        have hmem_a : a ∈ b :: t₂ := hp.subset (List.mem_cons_self a t₁)
        have hmem_b : b ∈ a :: t₁ := hp.symm.subset (List.mem_cons_self b t₂)
        have ha2 : a ∈ t₂ := by
          rcases List.mem_cons.mp hmem_a with h | h
          · exact absurd h hab
          · exact h
        have hb1 : b ∈ t₁ := by
          rcases List.mem_cons.mp hmem_b with h | h
          · exact absurd h.symm hab
          · exact h
        have h1 : txnLe a b = true :=
          List.all_eq_true.mp (pairwiseLe_cons_parts txnLe a t₁ hs1).1 b hb1
        have h2 : txnLe b a = true :=
          List.all_eq_true.mp (pairwiseLe_cons_parts txnLe b t₂ hs2).1 a ha2
        have hdd : a.date = b.date := dateLeB_antisymm _ _ h1 h2
        exact (List.pairwise_cons.mp hpw).1 b hb1 hdd

/-- Counterexample to claim C8 as stated: on two same-date rows the code's
ordering contract (`ORDER BY date ASC` alone) admits the id-descending output,
which violates the claimed id tie-break, and it admits two different outputs
for one store, so the row sequence is not deterministic. -/
theorem export_order_tie_counterexample :
    dbDateOrder [txTieA, txTieB] [txTieB, txTieA] ∧
    pairwiseLe txnLeById [txTieB, txTieA] = false ∧
    dbDateOrder [txTieA, txTieB] [txTieA, txTieB] ∧
    decide ([txTieB, txTieA] = [txTieA, txTieB]) = false :=
  ⟨⟨List.Perm.swap txTieA txTieB [], by decide⟩, by decide,
   ⟨List.Perm.refl _, by decide⟩, by decide⟩

/-- Claim C8 (amended): the sequence consumed by the running-balance loop is
any date-ascending permutation of the user's rows; no id tie-break is imposed,
so the sequence is guaranteed deterministic only when the dates are pairwise
distinct, in which case the date-sorted permutation is unique. -/
theorem export_order_date_sorted_deterministic (txns l₁ l₂ : List Txn)
    (hd : txns.Pairwise (fun a b => a.date ≠ b.date))
    (h₁ : dbDateOrder txns l₁) (h₂ : dbDateOrder txns l₂) :
    l₁ = l₂ ∧ pairwiseLe txnLe l₁ = true := by
  obtain ⟨hp1, hs1⟩ := h₁
  obtain ⟨hp2, hs2⟩ := h₂
  have hpw : l₁.Pairwise (fun a b => a.date ≠ b.date) :=
    (List.Perm.pairwise_iff (fun h e => h e.symm) hp1).mpr hd
  exact ⟨sorted_perm_eq l₁ l₂ (hp1.trans hp2.symm) hpw hs1 hs2, hs1⟩

/-- Witness for C8's amended theorem on two distinct-date rows. -/
theorem export_order_date_sorted_deterministic_witness :
    [txC100, txD40] = [txC100, txD40] ∧ pairwiseLe txnLe [txC100, txD40] = true :=
  export_order_date_sorted_deterministic [txC100, txD40] [txC100, txD40] [txC100, txD40]
    (by simp [List.pairwise_cons, txC100, txD40])
    ⟨List.Perm.refl _, by decide⟩ ⟨List.Perm.refl _, by decide⟩

/-! Stored-type invariant and amount sign (claim C9). -/

theorem mem_addTransaction_result (userId nextId : Nat) (db : List Txn) (req : TxnReq)
    (t : Txn) (ht : t ∈ (addTransaction userId nextId db req).2) :
    t ∈ db ∨ (enumType t.ty = true ∧ enumMode t.mode = true) := by
  obtain ⟨ra, rt, rc, rm, rdt, rdesc⟩ := req
  rcases ra with _ | av <;> rcases rt with _ | tv <;> rcases rc with _ | cv <;>
    rcases rm with _ | mv <;> rcases rdt with _ | dv <;>
    try (simp [addTransaction, allTruthy, jTruthy, sTruthy] at ht; exact Or.inl ht)
  simp only [addTransaction] at ht
  split at ht
  · exact Or.inl ht
  · split at ht
    · split at ht
      · rename_i hguard
        obtain ⟨h1, h2⟩ := (Bool.and_eq_true _ _).mp hguard
        rcases List.mem_append.mp ht with h | h
        · exact Or.inl h
        · rw [List.mem_singleton] at h
          subst h
          exact Or.inr ⟨h1, h2⟩
      · exact Or.inl ht
    · exact Or.inl ht

theorem mem_editTransaction_result (caller tid : Nat) (db : List Txn) (req : TxnReq)
    (t : Txn) (ht : t ∈ (editTransaction caller tid req db).2) :
    t ∈ db ∨ (enumType t.ty = true ∧ enumMode t.mode = true) := by
  obtain ⟨ra, rt, rc, rm, rdt, rdesc⟩ := req
  rcases hf : List.find? (fun u => u.id == tid && u.userId == caller) db with _ | u0
  · have : editTransaction caller tid ⟨ra, rt, rc, rm, rdt, rdesc⟩ db = (.notFound, db) := by
      simp [editTransaction, hf]
    rw [this] at ht
    exact Or.inl ht
  rcases ra with _ | av <;> rcases rt with _ | tv <;> rcases rc with _ | cv <;>
    rcases rm with _ | mv <;> rcases rdt with _ | dv <;>
    try (simp [editTransaction, hf] at ht; exact Or.inl ht)
  simp only [editTransaction, hf] at ht
  split at ht
  · split at ht
    · rename_i hguard
      obtain ⟨h1, h2⟩ := (Bool.and_eq_true _ _).mp hguard
      obtain ⟨u, hu, hfu⟩ := List.mem_map.mp ht
      by_cases hcond : (u.id == tid && u.userId == caller) = true
      · rw [if_pos hcond] at hfu
        right
        rw [← hfu]
        exact ⟨h1, h2⟩
      · rw [if_neg hcond] at hfu
        exact Or.inl (hfu ▸ hu)
    · exact Or.inl ht
  · exact Or.inl ht

/-- Counterexample to claim C9 as stated: the create operation accepts a
negative amount — `float("-5")`-style values pass the truthiness guard and the
schema has no sign constraint — so amounts are not always non-negative
magnitudes. -/
theorem add_negative_amount_counterexample :
    (addTransaction 7 1 [] reqNeg).1 = AddRes.success ∧
    (addTransaction 7 1 [] reqNeg).2 =
      [⟨1, 7, -5, "debit", "food", none, "cash", ⟨2024, 1, 2⟩⟩] ∧
    ((addTransaction 7 1 [] reqNeg).2.all (fun t => decide (0 ≤ t.amount))) = false := by
  decide

/-- Claim C9 (amended): every transaction stored through create or edit has a
type in the enumerated set — the database CHECK constraint makes both
operations preserve this invariant — but the amount's sign is not constrained
anywhere, so non-negativity of stored amounts is not an invariant. -/
theorem type_enum_invariant_preserved (userId nextId caller tid : Nat) (db : List Txn)
    (ra re : TxnReq) (hdb : ∀ t ∈ db, enumType t.ty = true) :
    (∀ t ∈ (addTransaction userId nextId db ra).2, enumType t.ty = true) ∧
    (∀ t ∈ (editTransaction caller tid re db).2, enumType t.ty = true) := by
  constructor
  · intro t ht
    rcases mem_addTransaction_result userId nextId db ra t ht with h | h
    · exact hdb t h
    · exact h.1
  · intro t ht
    rcases mem_editTransaction_result caller tid db re t ht with h | h
    · exact hdb t h
    · exact h.1

/-- Witness for C9's amended theorem: the invariant holds on the rows produced
from an empty store by the sample requests. -/
theorem type_enum_invariant_preserved_witness :
    (∀ t ∈ (addTransaction 7 1 [] reqNeg).2, enumType t.ty = true) ∧
    (∀ t ∈ (editTransaction 1 1 reqNoTy []).2, enumType t.ty = true) :=
  type_enum_invariant_preserved 7 1 1 1 [] reqNeg reqNoTy (by decide)

/-! Truthiness of the required-field guard (claim C10). -/

/-- Counterexample to the claim's consequence that a zero-amount transaction
can never be added: the JSON string "0" is truthy, passes the guard, and
`float("0")` stores an amount of exactly 0. -/
theorem add_zero_amount_via_string_counterexample :
    (addTransaction 1 1 [] reqStrZero).1 = AddRes.success ∧
    (addTransaction 1 1 [] reqStrZero).2 =
      [⟨1, 1, 0, "debit", "food", none, "cash", ⟨2024, 1, 2⟩⟩] := by
  decide

/-- Claim C10 (amended): the create guard tests truthiness, not presence — a
request whose amount is the JSON number 0, or whose type/category/mode/date is
an empty string, is answered with the 400 "Missing fields" response and no
transaction is created; however a zero amount sent as the truthy string "0"
still stores a zero-amount transaction. -/
theorem add_truthiness_guard (userId nextId : Nat) (db : List Txn) (req : TxnReq)
    (h : req.amount = some (.num 0) ∨ req.ty = some ("") ∨ req.category = some ("") ∨
         req.mode = some ("") ∨ req.date = some ("")) :
    addTransaction userId nextId db req = (.missingFields, db) := by
  have hT : allTruthy req = false := by
    rcases h with h | h | h | h | h <;>
      simp [allTruthy, jTruthy, sTruthy, h]
  simp [addTransaction, hT]

/-- Witness for C10's amended theorem at the falsy numeric-zero amount. -/
theorem add_truthiness_guard_witness :
    addTransaction 1 1 [] reqZeroNum = (AddRes.missingFields, []) :=
  add_truthiness_guard 1 1 [] reqZeroNum (Or.inl rfl)

end ExpTrk
